import Mathlib

/-!
Verification of the PackingLine label-data extraction and credential-verification
logic (src/models/user_model.py and src/utils/validators.py), shallowly embedded
over a `List Char` model of Python strings and a `List Nat` model of byte arrays.

Python strings are modelled as `SStr := List Char`; Python `str.split(sep)` (for a
non-empty separator), `str.strip()`, `str.lower()` (for the ASCII range used by
this code), `str.startswith`, `str.find` and `sep.join` are re-implemented over
lists.  Uncaught Python exceptions are modelled with `Except PyExc`; any `try`
block of the source that catches an exception class is modelled by inspecting
the corresponding `Except` value at the position of the handler.
-/

/-- Python strings, modelled as lists of characters. -/
abbrev SStr := List Char

/-- Exceptions that the modelled code can raise. -/
inductive PyExc where
  | indexError
  | typeError
  deriving DecidableEq, Repr

instance {ε α : Type} [DecidableEq ε] [DecidableEq α] : DecidableEq (Except ε α)
  | .ok a, .ok b =>
    if h : a = b then isTrue (by rw [h]) else isFalse (by intro hc; cases hc; exact h rfl)
  | .ok _, .error _ => isFalse (by intro h; cases h)
  | .error _, .ok _ => isFalse (by intro h; cases h)
  | .error e, .error f =>
    if h : e = f then isTrue (by rw [h]) else isFalse (by intro hc; cases hc; exact h rfl)

/-- `true` iff an `Except`-modelled computation finished without an uncaught
exception. -/
def isOkE {α : Type} : Except PyExc α → Bool
  | .ok _ => true
  | .error _ => false

/-- The whitespace test of Python `str.strip` (ASCII whitespace). -/
def pyIsSpace (c : Char) : Bool :=
  c = ' ' || c = '\t' || c = '\n' || c = '\x0d' || c = '\x0b' || c = '\x0c'

/-- Python `str.strip()`: remove leading and trailing whitespace. -/
def pyStrip (s : SStr) : SStr :=
  ((s.dropWhile pyIsSpace).reverse.dropWhile pyIsSpace).reverse

/-- ASCII lower-casing of one character (the only case mapping the modelled
code relies on: its needles are plain ASCII). -/
def asciiLower (c : Char) : Char :=
  if 'A' ≤ c ∧ c ≤ 'Z' then Char.ofNat (c.toNat + 32) else c

/-- Python `str.lower()` restricted to the ASCII case mapping. -/
def pyLower (s : SStr) : SStr := s.map asciiLower

/-- `true` iff `sep` occurs as a contiguous sublist of `s`
(Python `sep in s`). -/
def occursIn {α : Type} [DecidableEq α] (sep : List α) : List α → Bool
  | [] => sep.isPrefixOf []
  | c :: rest => sep.isPrefixOf (c :: rest) || occursIn sep rest

/-- Python `s.find(sep)`: index of the first occurrence of `sep` in `s`,
`none` when absent (the source's `-1`). -/
def pyFind {α : Type} [DecidableEq α] (sep : List α) : List α → Option Nat
  | [] => if sep.isPrefixOf ([] : List α) then some 0 else none
  | c :: rest =>
    if sep.isPrefixOf (c :: rest) then some 0
    else (pyFind sep rest).map (· + 1)

/-- Python `sep.join(parts)`. -/
def joinSep {α : Type} (sep : List α) : List (List α) → List α
  | [] => []
  | [p] => p
  | p :: q :: ps => p ++ sep ++ joinSep sep (q :: ps)

/-- Fuelled worker for `pySplit`.  Each step consumes at least one element of
the subject, so any fuel above the subject's length computes Python's
leftmost-first split. -/
def pySplitF {α : Type} [DecidableEq α] (sep : List α) : Nat → List α → List (List α)
  | 0, _ => []
  | _ + 1, [] => [[]]
  | fuel + 1, c :: rest =>
    if sep ≠ [] ∧ sep.isPrefixOf (c :: rest) then
      [] :: pySplitF sep fuel (List.drop (sep.length - 1) rest)
    else
      match pySplitF sep fuel rest with
      | [] => [[c]]
      | p :: ps => (c :: p) :: ps

/-- Python `s.split(sep)` for a non-empty separator: scan left to right, cut at
each leftmost occurrence of `sep`, resume after it. -/
def pySplit {α : Type} [DecidableEq α] (sep : List α) (s : List α) : List (List α) :=
  pySplitF sep (s.length + 1) s

/-- Truthiness of a Python `str | None` value: `None` and `""` are falsy. -/
def pyTruthyStr (o : Option SStr) : Bool :=
  match o with
  | none => false
  | some s => !s.isEmpty

/-- Truthiness of a Python `list | None` value: `None` and `[]` are falsy. -/
def pyTruthyOptList {α : Type} (o : Option (List α)) : Bool :=
  match o with
  | none => false
  | some l => !l.isEmpty

/-- Python's `except Exception` wrapped around a whole body: any uncaught
exception of the body collapses to the fallback result. -/
def pyCatchAll {α : Type} (body : Except PyExc α) (fallback : α) : Except PyExc α :=
  match body with
  | .ok r => .ok r
  | .error _ => .ok fallback

/-- Sequence a list of optional values; `none` as soon as one entry is `none`
(used to model `str.join` raising `TypeError` on a `None` element). -/
def seqOpts {α : Type} : List (Option α) → Option (List α)
  | [] => some []
  | none :: _ => none
  | some a :: rest => (seqOpts rest).map (a :: ·)

/-- `sep.join(xs)` where `xs` may contain `None`: Python raises `TypeError`
on the first non-string element. -/
def pyJoinStrict (sep : SStr) (xs : List (Option SStr)) : Except PyExc SStr :=
  match seqOpts xs with
  | none => .error .typeError
  | some vs => .ok (joinSep sep vs)

/-- No occurrence of `sep` begins strictly inside `p` when `p` is immediately
followed by `sep` in a larger string: such an occurrence lies entirely inside
`(p ++ sep).dropLast`. -/
def noCross {α : Type} [DecidableEq α] (sep p : List α) : Prop :=
  occursIn sep (List.dropLast (p ++ sep)) = false

/-- The invariant enjoyed by the pieces of a leftmost-first split: every piece
but the last satisfies `noCross`, and the last contains no occurrence of
`sep`. -/
def GoodPieces {α : Type} [DecidableEq α] (sep : List α) : List (List α) → Prop
  | [] => True
  | [p] => occursIn sep p = false
  | p :: q :: ps => noCross sep p ∧ GoodPieces sep (q :: ps)

/-! ## Model of `src/models/user_model.py` (`SzvDecrypt`) -/

/-- Windows-1250 mapping of the high half `0x80`–`0xFF` to Unicode code
points; `none` marks the five bytes undefined in cp1250, on which Python's
strict `bytes.decode('windows-1250')` raises `UnicodeDecodeError`. -/
def cp1250HiTable : List (Option Nat) := [
  some 0x20AC, none,        some 0x201A, none,        some 0x201E, some 0x2026, some 0x2020, some 0x2021,
  none,        some 0x2030, some 0x0160, some 0x2039, some 0x015A, some 0x0164, some 0x017D, some 0x0179,
  none,        some 0x2018, some 0x2019, some 0x201C, some 0x201D, some 0x2022, some 0x2013, some 0x2014,
  none,        some 0x2122, some 0x0161, some 0x203A, some 0x015B, some 0x0165, some 0x017E, some 0x017A,
  some 0x00A0, some 0x02C7, some 0x02D8, some 0x0141, some 0x00A4, some 0x0104, some 0x00A6, some 0x00A7,
  some 0x00A8, some 0x00A9, some 0x015E, some 0x00AB, some 0x00AC, some 0x00AD, some 0x00AE, some 0x017B,
  some 0x00B0, some 0x00B1, some 0x02DB, some 0x0142, some 0x00B4, some 0x00B5, some 0x00B6, some 0x00B7,
  some 0x00B8, some 0x0105, some 0x015F, some 0x00BB, some 0x013D, some 0x02DD, some 0x013E, some 0x017C,
  some 0x0154, some 0x00C1, some 0x00C2, some 0x0102, some 0x00C4, some 0x0139, some 0x0106, some 0x00C7,
  some 0x010C, some 0x00C9, some 0x0118, some 0x00CB, some 0x011A, some 0x00CD, some 0x00CE, some 0x010E,
  some 0x0110, some 0x0143, some 0x0147, some 0x00D3, some 0x00D4, some 0x0150, some 0x00D6, some 0x00D7,
  some 0x0158, some 0x016E, some 0x00DA, some 0x0170, some 0x00DC, some 0x00DD, some 0x0162, some 0x00DF,
  some 0x0155, some 0x00E1, some 0x00E2, some 0x0103, some 0x00E4, some 0x013A, some 0x0107, some 0x00E7,
  some 0x010D, some 0x00E9, some 0x0119, some 0x00EB, some 0x011B, some 0x00ED, some 0x00EE, some 0x010F,
  some 0x0111, some 0x0144, some 0x0148, some 0x00F3, some 0x00F4, some 0x0151, some 0x00F6, some 0x00F7,
  some 0x0159, some 0x016F, some 0x00FA, some 0x0171, some 0x00FC, some 0x00FD, some 0x0163, some 0x02D9]

/-- One byte of Windows-1250, decoded to a character (`none` = decode error). -/
def cp1250Byte (b : Nat) : Option Char :=
  if b < 0x80 then some (Char.ofNat b)
  else
    match cp1250HiTable.getD (b - 0x80) none with
    | some cp => some (Char.ofNat cp)
    | none => none

/-- `bytes.decode('windows-1250')` under the strict error policy. -/
def decodeCp1250 : List Nat → Option SStr
  | [] => some []
  | b :: rest =>
    match cp1250Byte b, decodeCp1250 rest with
    | some c, some cs => some (c :: cs)
    | _, _ => none

/-- The ASCII NAK field separator `'\x15'` used by the credential file. -/
def nakChar : Char := Char.ofNat 0x15

/-- The XOR loop of `SzvDecrypt.decoding_line` (user_model.py lines 99-104):
`int_xor` starts at `len(data) % 32` via `decodingXor` and is advanced by
`(int_xor + 5) % 32` after every byte. -/
def decodingXorGo (intXor : Nat) : List Nat → List Nat
  | [] => []
  | b :: rest => (b ^^^ (intXor ^^^ 0x6)) :: decodingXorGo ((intXor + 5) % 32) rest

/-- The positional XOR step of `SzvDecrypt.decoding_line` on a whole byte
sequence. -/
def decodingXor (encodedData : List Nat) : List Nat :=
  decodingXorGo (encodedData.length % 32) encodedData

/-- `SzvDecrypt.decoding_line`: XOR-decode, decode as Windows-1250, split on
`'\x15'`.  `none` models an uncaught `UnicodeDecodeError` (the callers of
`decoding_line` catch it). -/
def decoding_line (encodedData : List Nat) : Option (List SStr) :=
  (decodeCp1250 (decodingXor encodedData)).map (fun s => pySplit [nakChar] s)

/-- The XOR stream as claim C2 words it: the byte at index `i` is XORed with
`k XOR 0x06` where the rolling key at index `i` equals `(n + 5*i) mod 32`
(`k` starts at `n mod 32` and gains `5 mod 32` per byte).  Second definition
for the refinement statement; the source definition is `decodingXor`. -/
def specXorFrom (n : Nat) : Nat → List Nat → List Nat
  | _, [] => []
  | i, b :: rest => (b ^^^ (((n + 5 * i) % 32) ^^^ 0x6)) :: specXorFrom n (i + 1) rest

/-- The whole spec-worded XOR stream of claim C2. -/
def specXor (data : List Nat) : List Nat := specXorFrom data.length 0 data

/-- `SzvDecrypt.decoding_file`, modelled over the hex-decoded byte lines of
the credential file and an abstract SHA-256 hex digest function `sha`.
Any per-line failure (`UnicodeDecodeError`, bad hex, I/O) is caught by the
source's `except` and collapses the whole call to the `False` sentinel,
modelled as `none`; otherwise each line contributes the pair
`(sha(segment 0), ','.join(segments))`. -/
def decoding_file (fileLines : List (List Nat)) (sha : SStr → SStr) :
    Option (List (SStr × SStr)) :=
  match fileLines with
  | [] => some []
  | bl :: rest =>
    match decoding_line bl, decoding_file rest sha with
    | some segs, some acc => some ((sha (segs.getD 0 []), joinSep [','] segs) :: acc)
    | _, _ => none

/-- The record scan of `SzvDecrypt.check_login` (the body of its `try`):
on the first record whose stored digest equals the password digest, split the
joined string on `','`; with at least 4 parts the source reads
`parts[2]`, `parts[3]` and `parts[4]` (the last raising `IndexError` when
exactly 4 parts exist), publishes the prefix and returns `True`; with fewer
parts it logs and returns `False`. -/
def check_login_loop (hashedPassword : SStr) :
    List (SStr × SStr) → Except PyExc (Bool × Option (SStr × SStr × SStr))
  | [] => .ok (false, none)
  | (digest, joined) :: rest =>
    if digest = hashedPassword then
      let parts := pySplit [','] joined
      if 4 ≤ parts.length then
        match parts.get? 4 with
        | none => .error .indexError
        | some p4 =>
          .ok (true, some (pyStrip (parts.getD 2 []), pyStrip (parts.getD 3 []), pyStrip p4))
      else .ok (false, none)
    else check_login_loop hashedPassword rest

/-- `SzvDecrypt.check_login`: decode the credential file, scan for the digest,
and catch every exception (`except Exception`) as a failed login.  The value
component is the `(surname, name, prefix code)` triple; its third entry is
what the source publishes into the module-level global. -/
def check_login (fileLines : List (List Nat)) (sha : SStr → SStr) (password : SStr) :
    Except PyExc (Bool × Option (SStr × SStr × SStr)) :=
  match decoding_file fileLines sha with
  | none =>
    -- iterating over the `False` sentinel raises a TypeError inside the
    -- `try`, which the `except Exception` turns into a failed login
    .ok (false, none)
  | some decodedData =>
    pyCatchAll (check_login_loop (sha password) decodedData) (false, none)

/-! ## Model of `src/utils/validators.py` (`Validator`) -/

def dTok : SStr := "D=".toList

def eTok : SStr := "E=".toList

def jTok : SStr := "J=".toList

def kTok : SStr := "K=".toList

def bTok : SStr := "B=".toList

def iTok : SStr := "I=".toList

def commaSpaceTok : SStr := ", ".toList

/-- The three-character pseudo-CSV delimiter `","` (quote, comma, quote). -/
def qcqTok : SStr := "\",\"".toList

/-- The fixed schema field name targeted by the injection. -/
def balTarget : SStr := "P Znacka balice".toList

def my2nTok : SStr := "my2n token:".toList

/-- `Validator.validate_input_exists_for_product`: all of `{serial}B=`,
`{serial}D=`, `{serial}E=` must occur as a line start.  The second component
is the comma-joined list of missing keys the source logs. -/
def validate_input_exists_for_product (lblLines : List SStr) (serial : SStr) :
    Except PyExc (Bool × Option SStr) :=
  let keys := [serial ++ bTok, serial ++ dTok, serial ++ eTok]
  let missingKeys := keys.filter (fun key => !(lblLines.any (fun line => key.isPrefixOf line)))
  if missingKeys.isEmpty then .ok (true, none)
  else .ok (false, some (joinSep commaSpaceTok missingKeys))

/-- `Validator.validate_input_exists_for_control4`: same for `I=`, `J=`,
`K=`. -/
def validate_input_exists_for_control4 (lblLines : List SStr) (serial : SStr) :
    Except PyExc (Bool × Option SStr) :=
  let keys := [serial ++ iTok, serial ++ jTok, serial ++ kTok]
  let missingKeys := keys.filter (fun key => !(lblLines.any (fun line => key.isPrefixOf line)))
  if missingKeys.isEmpty then .ok (true, none)
  else .ok (false, some (joinSep commaSpaceTok missingKeys))

/-- `Validator.validate_and_inject_balice`: split header and record on `","`,
find the index of `"P Znacka balice"` in the header (a `ValueError` from
`.index` is caught and yields `None`), bound-check it against the record,
replace that record field with the published prefix and re-join.  When the
published prefix is still `None`, the re-join raises a `TypeError` that the
`except ValueError` clause does NOT catch. -/
def validate_and_inject_balice (header record : SStr) (valuePrefix : Option SStr) :
    Except PyExc (Option SStr) :=
  let headerFields := pySplit qcqTok header
  let recordFields := pySplit qcqTok record
  match headerFields.findIdx? (fun f => decide (f = balTarget)) with
  | none => .ok none
  | some index =>
    if recordFields.length ≤ index then .ok none
    else
      match pyJoinStrict qcqTok ((recordFields.map some).set index valuePrefix) with
      | .ok s => .ok (some s)
      | .error e => .error e

/-- The scan loop shared by `Validator.extract_header_and_record` and
`Validator.extract_header_and_record_c4`: every matching line overwrites the
candidate (no break), the payload is element 1 of splitting the line on the
bare token, stripped. -/
def ehr_loop (keyH keyR tokH tokR : SStr) :
    List SStr → Option SStr → Option SStr → Except PyExc (Option SStr × Option SStr)
  | [], header, record => .ok (header, record)
  | line :: rest, header, record =>
    if keyH.isPrefixOf line then
      match (pySplit tokH line).get? 1 with
      | none => .error .indexError
      | some seg => ehr_loop keyH keyR tokH tokR rest (some (pyStrip seg)) record
    else if keyR.isPrefixOf line then
      match (pySplit tokR line).get? 1 with
      | none => .error .indexError
      | some seg => ehr_loop keyH keyR tokH tokR rest header (some (pyStrip seg))
    else ehr_loop keyH keyR tokH tokR rest header record

/-- `Validator.extract_header_and_record` (`D=` header line, `E=` record
line); both must be found non-falsy or the call returns `None` as a unit. -/
def extract_header_and_record (lblLines : List SStr) (serial : SStr) :
    Except PyExc (Option (SStr × SStr)) :=
  match ehr_loop (serial ++ dTok) (serial ++ eTok) dTok eTok lblLines none none with
  | .error e => .error e
  | .ok (header, record) =>
    if pyTruthyStr header && pyTruthyStr record then
      .ok (some (header.getD [], record.getD []))
    else .ok none

/-- `Validator.extract_header_and_record_c4` (`J=` header line, `K=` record
line). -/
def extract_header_and_record_c4 (lblLines : List SStr) (serial : SStr) :
    Except PyExc (Option (SStr × SStr)) :=
  match ehr_loop (serial ++ jTok) (serial ++ kTok) jTok kTok lblLines none none with
  | .error e => .error e
  | .ok (header, record) =>
    if pyTruthyStr header && pyTruthyStr record then
      .ok (some (header.getD [], record.getD []))
    else .ok none

/-- The scan loop shared by `Validator.extract_trigger_values` and
`Validator.extract_trigger_values_c4`: the loop RETURNS on the first matching
line; the payload is split on `';'`, each piece stripped, empty pieces
dropped. -/
def etv_loop (keyT tokT : SStr) : List SStr → Except PyExc (Option (List SStr))
  | [] => .ok none
  | line :: rest =>
    if keyT.isPrefixOf line then
      match (pySplit tokT line).get? 1 with
      | none => .error .indexError
      | some rawValue =>
        .ok (some (((pySplit [';'] rawValue).map pyStrip).filter (fun v => !v.isEmpty)))
    else etv_loop keyT tokT rest

/-- `Validator.extract_trigger_values` (`B=` line). -/
def extract_trigger_values (lblLines : List SStr) (serial : SStr) :
    Except PyExc (Option (List SStr)) :=
  etv_loop (serial ++ bTok) bTok lblLines

/-- `Validator.extract_trigger_values_c4` (`I=` line). -/
def extract_trigger_values_c4 (lblLines : List SStr) (serial : SStr) :
    Except PyExc (Option (List SStr)) :=
  etv_loop (serial ++ iTok) iTok lblLines

/-- Outcomes of `Validator.extract_my2n_token` (which reports them as `None`
plus distinct log messages). -/
inductive My2nRes where
  | invalidFormat
  | missingFile
  | missing
  | procError
  | emptyValue
  | found (token : SStr)
  deriving DecidableEq

/-- The token scan of `Validator.extract_my2n_token`: walk the lines in
reverse for the first one containing `"my2n token:"` case-insensitively,
locate the needle in the lowered line, and return the stripped remainder of
the ORIGINAL line after that position. -/
def extract_my2n_core (lines : List SStr) : My2nRes :=
  match lines.reverse.find? (fun line => occursIn my2nTok (pyLower line)) with
  | none => .missing
  | some tokenLine =>
    match pyFind my2nTok (pyLower tokenLine) with
    | none => .procError
    | some prefixIndex =>
      let tokenValue := pyStrip (tokenLine.drop (prefixIndex + my2nTok.length))
      if tokenValue.isEmpty then .emptyValue else .found tokenValue

/-- `Validator.extract_my2n_token`, with the report file's contents supplied
as `reportFile` (`none` = the constructed path does not exist).  Read or scan
errors are caught by the source's `except Exception`, so the call never lets
an exception escape. -/
def extract_my2n_token (serialNumber : SStr) (reportFile : Option (List SStr)) :
    Except PyExc My2nRes :=
  if (pySplit ['-'] serialNumber).length ≠ 3 then .ok .invalidFormat
  else
    match reportFile with
    | none => .ok .missingFile
    | some lines => .ok (extract_my2n_core lines)

/-! ## Concrete inputs used by witnesses and counterexamples -/

/-- Decoded plaintext of the witness credential record: secret `pw`, then the
NAK separator, then the comma-separated attribute string. -/
def exC1Text : SStr := "pw\x15a,Sur,Giv,PFX".toList

/-- The witness credential line in encoded form (the XOR step is its own
inverse, so encoding uses the same transform). -/
def exC1Bytes : List Nat := decodingXor (exC1Text.map Char.toNat)

/-- A stand-in digest function for witnesses (the claims hold for every
`sha`). -/
def exIdFun : SStr → SStr := fun s => s

def exC1Pw : SStr := "pw".toList

def exSerialS : SStr := "s".toList

def exC3LineD : SStr := "sD=aD=b".toList

def exC3LineE : SStr := "sE=r".toList

def exC4Line1 : SStr := "sB=1".toList

def exC4Line2 : SStr := "sB=2".toList

def exC10Line : SStr := "sB=; ;;".toList

def exC5Header : SStr := "P Znacka balice".toList

def exC5Record : SStr := "a\",\"b".toList

def exC5BadValue : SStr := "x\",\"y".toList

def exC5Clean : SStr := "OK7".toList

/-- The record produced by injecting `exC5BadValue` into `exC5Record`. -/
def exC5BadOut : SStr := "x\",\"y\",\"b".toList

/-- The record produced by injecting `exC5Clean` into `exC5Record`. -/
def exC5CleanOut : SStr := "OK7\",\"b".toList

def exMy2nSerial : SStr := "24-0001-0002".toList

def exMy2nLine1 : SStr := "My2N Token: ABC".toList

def exMy2nLine2 : SStr := "My2N Token: XYZ".toList

theorem pySplitF_congr {α : Type} [DecidableEq α] (sep : List α) :
    ∀ f₁ f₂ s, (s : List α).length < f₁ → s.length < f₂ →
      pySplitF sep f₁ s = pySplitF sep f₂ s := by
  intro f₁
  induction f₁ with
  | zero => intro f₂ s h1 _; omega
  | succ f ih =>
    intro f₂ s h1 h2
    match f₂, s with
    | 0, s => omega
    | g + 1, [] => rfl
    | g + 1, c :: rest =>
      simp only [pySplitF]
      by_cases hcut : sep ≠ [] ∧ sep.isPrefixOf (c :: rest)
      · simp only [if_pos hcut]
        have hlen : (List.drop (sep.length - 1) rest).length < f := by
          have := List.length_drop (sep.length - 1) rest
          simp only [List.length_cons] at h1
          omega
        have hlen2 : (List.drop (sep.length - 1) rest).length < g := by
          have := List.length_drop (sep.length - 1) rest
          simp only [List.length_cons] at h2
          omega
        rw [ih g (List.drop (sep.length - 1) rest) hlen hlen2]
      · simp only [if_neg hcut]
        have hlen : rest.length < f := by simp only [List.length_cons] at h1; omega
        have hlen2 : rest.length < g := by simp only [List.length_cons] at h2; omega
        rw [ih g rest hlen hlen2]

theorem pySplit_nil {α : Type} [DecidableEq α] (sep : List α) :
    pySplit sep [] = [[]] := rfl

theorem pySplit_cons {α : Type} [DecidableEq α] (sep : List α) (c : α) (rest : List α) :
    pySplit sep (c :: rest) =
      if sep ≠ [] ∧ sep.isPrefixOf (c :: rest) then
        [] :: pySplit sep (List.drop (sep.length - 1) rest)
      else
        match pySplit sep rest with
        | [] => [[c]]
        | p :: ps => (c :: p) :: ps := by
  show pySplitF sep (rest.length + 2) (c :: rest) = _
  simp only [pySplitF]
  by_cases hcut : sep ≠ [] ∧ sep.isPrefixOf (c :: rest)
  · simp only [if_pos hcut]
    rw [pySplitF_congr sep (rest.length + 1) ((List.drop (sep.length - 1) rest).length + 1)
      (List.drop (sep.length - 1) rest)
      (by have := List.length_drop (sep.length - 1) rest; omega) (by omega)]
    rfl
  · simp only [if_neg hcut]
    rfl

theorem pySplit_ne_nil {α : Type} [DecidableEq α] (sep : List α) (s : List α) :
    pySplit sep s ≠ [] := by
  cases s with
  | nil => simp [pySplit_nil]
  | cons c rest =>
    rw [pySplit_cons]
    by_cases hcut : sep ≠ [] ∧ sep.isPrefixOf (c :: rest)
    · simp [hcut]
    · simp only [if_neg hcut]
      cases pySplit sep rest <;> simp

theorem isPrefixOf_append_self {α : Type} [DecidableEq α] (sep t : List α) :
    sep.isPrefixOf (sep ++ t) = true := by
  induction sep with
  | nil => simp [List.isPrefixOf]
  | cons a s ih => simp [List.isPrefixOf, ih]

theorem occursIn_of_isPrefixOf {α : Type} [DecidableEq α] {sep s : List α}
    (h : sep.isPrefixOf s = true) : occursIn sep s = true := by
  cases s with
  | nil => simpa [occursIn] using h
  | cons c rest => simp [occursIn, h]

theorem occursIn_append_left {α : Type} [DecidableEq α] (sep x : List α) {t : List α}
    (h : occursIn sep t = true) : occursIn sep (x ++ t) = true := by
  induction x with
  | nil => simpa using h
  | cons c x' ih =>
    have : occursIn sep (c :: (x' ++ t)) = (sep.isPrefixOf (c :: (x' ++ t)) || occursIn sep (x' ++ t)) := rfl
    simp only [List.cons_append, this, ih, Bool.or_true]

theorem occursIn_short {α : Type} [DecidableEq α] {sep s : List α}
    (h : s.length < sep.length) : occursIn sep s = false := by
  induction s with
  | nil =>
    cases sep with
    | nil => simp at h
    | cons a q => simp [occursIn, List.isPrefixOf]
  | cons c rest ih =>
    have hpre : sep.isPrefixOf (c :: rest) = false := by
      cases hb : sep.isPrefixOf (c :: rest) with
      | false => rfl
      | true =>
        have hp : sep <+: c :: rest := List.isPrefixOf_iff_prefix.mp hb
        have := hp.length_le
        simp only [List.length_cons] at this h
        omega
    have hr : occursIn sep rest = false := ih (by simp only [List.length_cons] at h; omega)
    simp [occursIn, hpre, hr]

theorem pySplit_length_ge_two {α : Type} [DecidableEq α] {sep : List α}
    (hs : sep ≠ []) :
    ∀ n (s : List α), s.length ≤ n → occursIn sep s = true →
      2 ≤ (pySplit sep s).length := by
  intro n
  induction n with
  | zero =>
    intro s hlen hocc
    have hnil : s = [] := List.length_eq_zero.mp (by omega)
    subst hnil
    have hsl : 0 < sep.length := List.length_pos.mpr hs
    have : occursIn sep ([] : List α) = false := occursIn_short (by simpa using hsl)
    rw [this] at hocc
    exact absurd hocc (by simp)
  | succ m ih =>
    intro s hlen hocc
    cases s with
    | nil =>
      have hsl : 0 < sep.length := List.length_pos.mpr hs
      have : occursIn sep ([] : List α) = false := occursIn_short (by simpa using hsl)
      rw [this] at hocc
      exact absurd hocc (by simp)
    | cons c rest =>
      rw [pySplit_cons]
      by_cases hcut : sep ≠ [] ∧ sep.isPrefixOf (c :: rest)
      · simp only [if_pos hcut, List.length_cons]
        have := pySplit_ne_nil sep (List.drop (sep.length - 1) rest)
        have : 1 ≤ (pySplit sep (List.drop (sep.length - 1) rest)).length := by
          cases h : pySplit sep (List.drop (sep.length - 1) rest) with
          | nil => exact absurd h this
          | cons p ps => simp
        omega
      · simp only [if_neg hcut]
        have hpre : sep.isPrefixOf (c :: rest) = false := by
          cases hb : sep.isPrefixOf (c :: rest)
          · rfl
          · exact absurd ⟨hs, hb⟩ hcut
        have hocc' : occursIn sep rest = true := by
          have : occursIn sep (c :: rest) = (sep.isPrefixOf (c :: rest) || occursIn sep rest) := rfl
          rw [this, hpre] at hocc
          simpa using hocc
        have h2 : 2 ≤ (pySplit sep rest).length :=
          ih rest (by simp only [List.length_cons] at hlen; omega) hocc'
        cases h : pySplit sep rest with
        | nil => simp [h] at h2
        | cons p ps => simp only [h, List.length_cons] at h2 ⊢; omega

theorem pySplit_no_occurrence {α : Type} [DecidableEq α] {sep : List α} :
    ∀ n (s : List α), s.length ≤ n → occursIn sep s = false →
      pySplit sep s = [s] := by
  intro n
  induction n with
  | zero =>
    intro s hlen _
    have : s = [] := List.length_eq_zero.mp (by omega)
    subst this
    exact pySplit_nil sep
  | succ m ih =>
    intro s hlen hocc
    cases s with
    | nil => exact pySplit_nil sep
    | cons c rest =>
      have hocc_def : occursIn sep (c :: rest) = (sep.isPrefixOf (c :: rest) || occursIn sep rest) := rfl
      rw [hocc_def] at hocc
      have hpre : sep.isPrefixOf (c :: rest) = false := by
        cases hb : sep.isPrefixOf (c :: rest)
        · rfl
        · simp [hb] at hocc
      have hrest : occursIn sep rest = false := by
        cases hb : occursIn sep rest
        · rfl
        · simp [hb] at hocc
      rw [pySplit_cons]
      have hcut : ¬(sep ≠ [] ∧ sep.isPrefixOf (c :: rest) = true) := by
        intro ⟨_, hb⟩
        rw [hpre] at hb
        exact Bool.false_ne_true hb
      simp only [if_neg hcut]
      rw [ih rest (by simp only [List.length_cons] at hlen; omega) hrest]

theorem decodingXorGo_spec (n : Nat) :
    ∀ (l : List Nat) (i : Nat), decodingXorGo ((n + 5 * i) % 32) l = specXorFrom n i l := by
  intro l
  induction l with
  | nil => intro i; rfl
  | cons b rest ih =>
    intro i
    show (b ^^^ (((n + 5 * i) % 32) ^^^ 0x6)) :: decodingXorGo (((n + 5 * i) % 32 + 5) % 32) rest
        = (b ^^^ (((n + 5 * i) % 32) ^^^ 0x6)) :: specXorFrom n (i + 1) rest
    have hk : ((n + 5 * i) % 32 + 5) % 32 = (n + 5 * (i + 1)) % 32 := by omega
    rw [hk]
    exact congrArg _ (ih (i + 1))

theorem decodingXorGo_length (k : Nat) (l : List Nat) :
    (decodingXorGo k l).length = l.length := by
  induction l generalizing k with
  | nil => rfl
  | cons b rest ih => simp [decodingXorGo, ih]

theorem decodingXorGo_invol (l : List Nat) :
    ∀ k, decodingXorGo k (decodingXorGo k l) = l := by
  induction l with
  | nil => intro k; rfl
  | cons b rest ih =>
    intro k
    show ((b ^^^ (k ^^^ 0x6)) ^^^ (k ^^^ 0x6)) :: decodingXorGo ((k + 5) % 32) (decodingXorGo ((k + 5) % 32) rest)
        = b :: rest
    rw [Nat.xor_assoc, Nat.xor_self, Nat.xor_zero, ih ((k + 5) % 32)]

theorem list_get?_lt {α : Type} (l : List α) (i : Nat) (d : α) (h : i < l.length) :
    l.get? i = some (l.getD i d) := by
  induction l generalizing i with
  | nil => simp at h
  | cons a t ih =>
    cases i with
    | zero => simp [List.getD]
    | succ n =>
      simp only [List.get?_cons_succ, List.getD_cons_succ]
      exact ih n (by simpa using h)

theorem check_login_loop_skip (hashed : SStr) (pre rest : List (SStr × SStr))
    (hne : ∀ p ∈ pre, p.1 ≠ hashed) :
    check_login_loop hashed (pre ++ rest) = check_login_loop hashed rest := by
  induction pre with
  | nil => rfl
  | cons p0 pre' ih =>
    obtain ⟨d0, j0⟩ := p0
    have hd : d0 ≠ hashed := hne (d0, j0) (by simp)
    show check_login_loop hashed ((d0, j0) :: (pre' ++ rest)) = _
    simp only [check_login_loop, if_neg hd]
    exact ih (fun p hp => hne p (by simp [hp]))

/-- C2: on every byte sequence, `decoding_line` XORs the byte at index `i`
with `k XOR 0x06`, where the rolling key `k` for index `i` equals
`(n + 5*i) mod 32` (it starts at `n mod 32` and gains 5 modulo 32 per byte),
then decodes the result as Windows-1250 text and splits it on the ASCII NAK
character `0x15`, returning the ordered segments. -/
theorem claim_c2_decoding_line (encodedData : List Nat) :
    decoding_line encodedData =
      (decodeCp1250 (specXor encodedData)).map (fun s => pySplit [nakChar] s) := by
  unfold decoding_line decodingXor specXor
  have h0 : encodedData.length % 32 = (encodedData.length + 5 * 0) % 32 := by omega
  rw [h0, decodingXorGo_spec]

/-- C9: applying the positional XOR step of `decoding_line` twice returns the
original byte sequence (the key stream depends only on length and index, and
XOR is self-inverse). -/
theorem claim_c9_xor_involution (data : List Nat) :
    decodingXor (decodingXor data) = data := by
  unfold decodingXor
  rw [decodingXorGo_length]
  exact decodingXorGo_invol data (data.length % 32)

/-- C1: when `check_login` reaches the first decoded record whose stored
digest equals the password digest, then: if the record's joined attribute
string splits on `','` into at least 5 parts (the secret plus at least 4
further parts), it returns `True` and extracts and publishes the stripped
parts at indices 2 (surname), 3 (given name) and 4 (prefix); with fewer
parts it returns `False` with nothing published — for exactly 4 parts via
the caught `IndexError`, for fewer via the logged early return — never an
uncaught exception. -/
theorem claim_c1_check_login (fileLines : List (List Nat)) (sha : SStr → SStr)
    (password : SStr) (pre rest : List (SStr × SStr)) (joined : SStr)
    (hfile : decoding_file fileLines sha = some (pre ++ (sha password, joined) :: rest))
    (hne : ∀ p ∈ pre, p.1 ≠ sha password) :
    (5 ≤ (pySplit [','] joined).length →
      check_login fileLines sha password =
        .ok (true, some (pyStrip ((pySplit [','] joined).getD 2 []),
                         pyStrip ((pySplit [','] joined).getD 3 []),
                         pyStrip ((pySplit [','] joined).getD 4 []))))
    ∧ ((pySplit [','] joined).length < 5 →
      check_login fileLines sha password = .ok (false, none)) := by
  have hloop : check_login_loop (sha password) (pre ++ (sha password, joined) :: rest)
      = check_login_loop (sha password) ((sha password, joined) :: rest) :=
    check_login_loop_skip (sha password) pre _ hne
  have hhead : check_login_loop (sha password) ((sha password, joined) :: rest)
      = (let parts := pySplit [','] joined
         if 4 ≤ parts.length then
           match parts.get? 4 with
           | none => Except.error PyExc.indexError
           | some p4 =>
             Except.ok (true, some (pyStrip (parts.getD 2 []), pyStrip (parts.getD 3 []), pyStrip p4))
         else Except.ok (false, none)) := by
    simp only [check_login_loop, eq_self_iff_true, if_true]
  constructor
  · intro h5
    have h4 : 4 ≤ (pySplit [','] joined).length := by omega
    have hget : (pySplit [','] joined).get? 4 = some ((pySplit [','] joined).getD 4 []) :=
      list_get?_lt _ 4 [] (by omega)
    unfold check_login
    rw [hfile]
    simp only [hloop, hhead, if_pos h4, hget]
    rfl
  · intro h5
    unfold check_login
    rw [hfile]
    by_cases h4 : 4 ≤ (pySplit [','] joined).length
    · have hget : (pySplit [','] joined).get? 4 = none := by
        rw [List.get?_eq_none]
        omega
      simp only [hloop, hhead, if_pos h4, hget]
      rfl
    · simp only [hloop, hhead, if_neg h4]
      rfl

/-- Witness for C1 at a concrete credential file: the encoded line decodes to
secret `pw` and attribute string `a,Sur,Giv,PFX`; logging in with `pw`
succeeds and publishes surname `Sur`, given name `Giv`, prefix `PFX`. -/
theorem claim_c1_check_login_witness :
    check_login [ exC1Bytes ] exIdFun exC1Pw
      = .ok (true, some ("Sur".toList, "Giv".toList, "PFX".toList)) := by
  have h := (claim_c1_check_login [ exC1Bytes ] exIdFun exC1Pw []
    [] ("pw,a,Sur,Giv,PFX".toList) (by decide) (by simp)).1 (by decide)
  rw [h]
  decide

theorem validate_keys_filter_chr (L : List SStr) (keys : List SStr) :
    keys.filter (fun key => !(L.any (fun line => key.isPrefixOf line)))
      = keys.filter (fun k => decide (∀ line ∈ L, ¬ (k <+: line))) := by
  apply List.filter_congr
  intro k _
  cases h : L.any (fun line => k.isPrefixOf line) with
  | true =>
    simp only [Bool.not_true]
    symm
    rw [decide_eq_false_iff_not]
    simp only [List.any_eq_true] at h
    obtain ⟨line, hl, hp⟩ := h
    intro hall
    exact hall line hl (List.isPrefixOf_iff_prefix.mp hp)
  | false =>
    simp only [Bool.not_false]
    symm
    rw [decide_eq_true_eq]
    intro line hl hp
    have hb : k.isPrefixOf line = true := List.isPrefixOf_iff_prefix.mpr hp
    have := List.any_eq_true.mpr ⟨line, hl, hb⟩
    rw [h] at this
    exact absurd this (by simp)

theorem exists_absent_filter_ne_nil (L : List SStr) (keys : List SStr)
    (h : ∃ k ∈ keys, ∀ line ∈ L, ¬ (k <+: line)) :
    (keys.filter (fun k => decide (∀ line ∈ L, ¬ (k <+: line)))).isEmpty = false := by
  obtain ⟨k, hk, hall⟩ := h
  have hmem : k ∈ keys.filter (fun k => decide (∀ line ∈ L, ¬ (k <+: line))) :=
    List.mem_filter.mpr ⟨hk, by rw [decide_eq_true_eq]; exact hall⟩
  cases hfil : keys.filter (fun k => decide (∀ line ∈ L, ¬ (k <+: line))) with
  | nil => rw [hfil] at hmem; simp at hmem
  | cons a t => simp

theorem all_present_filter_nil (L : List SStr) (keys : List SStr)
    (h : ∀ k ∈ keys, ∃ line ∈ L, k <+: line) :
    (keys.filter (fun k => decide (∀ line ∈ L, ¬ (k <+: line)))).isEmpty = true := by
  rw [List.isEmpty_iff, List.filter_eq_nil_iff]
  intro k hk
  rw [Bool.not_eq_true, decide_eq_false_iff_not]
  intro hall
  obtain ⟨line, hl, hp⟩ := h k hk
  exact hall line hl hp

/-- C8: for every line-set `L` and serial `S`, for both `.lbl` protocols
(Product with required key prefixes `{S}B=`, `{S}D=`, `{S}E=`; Control4 with
`{S}I=`, `{S}J=`, `{S}K=`): if some required key starts no line of `L`, the
validator returns `False` and logs exactly the missing keys, joined with
`", "` in key order; if every required key starts some line, it returns
`True`. -/
theorem claim_c8_validate_required_lines (L : List SStr) (S : SStr) :
    ((∃ k ∈ [S ++ bTok, S ++ dTok, S ++ eTok], ∀ line ∈ L, ¬ (k <+: line)) →
       validate_input_exists_for_product L S =
         .ok (false, some (joinSep commaSpaceTok
           (([S ++ bTok, S ++ dTok, S ++ eTok]).filter
             (fun k => decide (∀ line ∈ L, ¬ (k <+: line)))))))
    ∧ ((∀ k ∈ [S ++ bTok, S ++ dTok, S ++ eTok], ∃ line ∈ L, k <+: line) →
       validate_input_exists_for_product L S = .ok (true, none))
    ∧ ((∃ k ∈ [S ++ iTok, S ++ jTok, S ++ kTok], ∀ line ∈ L, ¬ (k <+: line)) →
       validate_input_exists_for_control4 L S =
         .ok (false, some (joinSep commaSpaceTok
           (([S ++ iTok, S ++ jTok, S ++ kTok]).filter
             (fun k => decide (∀ line ∈ L, ¬ (k <+: line)))))))
    ∧ ((∀ k ∈ [S ++ iTok, S ++ jTok, S ++ kTok], ∃ line ∈ L, k <+: line) →
       validate_input_exists_for_control4 L S = .ok (true, none)) := by
  refine ⟨?_, ?_, ?_, ?_⟩
  · intro hex
    simp only [validate_input_exists_for_product]
    rw [validate_keys_filter_chr, exists_absent_filter_ne_nil L _ hex]
    simp
  · intro hall
    simp only [validate_input_exists_for_product]
    rw [validate_keys_filter_chr, all_present_filter_nil L _ hall]
    simp
  · intro hex
    simp only [validate_input_exists_for_control4]
    rw [validate_keys_filter_chr, exists_absent_filter_ne_nil L _ hex]
    simp
  · intro hall
    simp only [validate_input_exists_for_control4]
    rw [validate_keys_filter_chr, all_present_filter_nil L _ hall]
    simp

/-- Witness for C8: with only the `sB=` line present for serial `s`, the
Product validator fails and names `sD=, sE=` as missing. -/
theorem claim_c8_witness :
    validate_input_exists_for_product [ exC4Line1 ] exSerialS
      = .ok (false, some ("sD=, sE=".toList)) := by
  have h := (claim_c8_validate_required_lines [ exC4Line1 ] exSerialS).1 (by decide)
  rw [h]
  decide

theorem key_line_split_two (serial tok line : SStr) (htok : tok ≠ [])
    (h : (serial ++ tok).isPrefixOf line = true) : 2 ≤ (pySplit tok line).length := by
  have hp : serial ++ tok <+: line := List.isPrefixOf_iff_prefix.mp h
  obtain ⟨t, ht⟩ := hp
  have hocc : occursIn tok line = true := by
    rw [← ht, List.append_assoc]
    exact occursIn_append_left tok serial (occursIn_of_isPrefixOf (isPrefixOf_append_self tok t))
  exact pySplit_length_ge_two htok line.length line le_rfl hocc

theorem etv_loop_find (keyT tokT : SStr)
    (hok : ∀ line, keyT.isPrefixOf line = true → 2 ≤ (pySplit tokT line).length) :
    ∀ lines, etv_loop keyT tokT lines =
      match lines.find? (fun line => keyT.isPrefixOf line) with
      | none => Except.ok none
      | some line =>
        Except.ok (some (((pySplit [';'] ((pySplit tokT line).getD 1 [])).map pyStrip).filter
          (fun v => !v.isEmpty))) := by
  intro lines
  induction lines with
  | nil => rfl
  | cons l rest ih =>
    by_cases hl : keyT.isPrefixOf l = true
    · have h2 := hok l hl
      have hget : (pySplit tokT l).get? 1 = some ((pySplit tokT l).getD 1 []) :=
        list_get?_lt _ 1 [] (by omega)
      simp only [etv_loop, hl, if_true, hget, List.find?_cons, Bool.cond_decide]
    · have hl' : keyT.isPrefixOf l = false := by
        cases hb : keyT.isPrefixOf l
        · rfl
        · exact absurd hb hl
      simp only [etv_loop, hl', Bool.false_eq_true, if_false, List.find?_cons]
      rw [ih]

/-- C4 (amended): `extract_trigger_values` returns the values parsed from the
FIRST line starting with `{serial}B=` in the line-set — the scan loop returns
on its first match, so duplicate `{serial}B=` lines yield the first one, not
the last.  The whole function is characterized through `List.find?` (first
match). -/
theorem claim_c4_first_match (lblLines : List SStr) (serial : SStr) :
    extract_trigger_values lblLines serial =
      match lblLines.find? (fun line => (serial ++ bTok).isPrefixOf line) with
      | none => Except.ok none
      | some line =>
        Except.ok (some (((pySplit [';'] ((pySplit bTok line).getD 1 [])).map pyStrip).filter
          (fun v => !v.isEmpty))) :=
  etv_loop_find (serial ++ bTok) bTok
    (fun line h => key_line_split_two serial bTok line (by decide) h) lblLines

/-- C4 counterexample: on the line-set `["sB=1", "sB=2"]` with serial `s`,
`extract_trigger_values` yields the first line's values `["1"]`, not the last
line's `["2"]` as the claim states. -/
theorem claim_c4_counterexample :
    extract_trigger_values [ exC4Line1, exC4Line2 ] exSerialS = .ok (some [ "1".toList ])
    ∧ (Except.ok (some [ "1".toList ]) : Except PyExc (Option (List SStr)))
        ≠ .ok (some [ "2".toList ]) :=
  ⟨by decide, by decide⟩

/-- C10: a `{serial}B=` line whose payload consists only of semicolons and
whitespace makes `extract_trigger_values` return the empty list — a success
value distinct from the `None` returned when no `{serial}B=` line exists —
yet Python truthiness (the test `if not trigger_values` used by
`PrintController.print_button_click`) cannot tell the two outcomes apart. -/
theorem claim_c10_empty_values_vs_missing :
    extract_trigger_values [ exC10Line ] exSerialS = .ok (some ([] : List SStr))
    ∧ (some ([] : List SStr)) ≠ (none : Option (List SStr))
    ∧ pyTruthyOptList (some ([] : List SStr)) = pyTruthyOptList (none : Option (List SStr)) :=
  ⟨by decide, by simp, by decide⟩

theorem getLast?_cons_eq {α : Type} (a : α) (l : List α) :
    (a :: l).getLast? = some (l.getLast?.getD a) := by
  cases h : l.getLast? <;> simp_all [List.getLast?_cons]

theorem keys_disjoint (serial a b : SStr) (hlen : a.length = b.length) (hne : a ≠ b)
    (line : SStr) (h : (serial ++ a).isPrefixOf line = true) :
    (serial ++ b).isPrefixOf line = false := by
  cases hb : (serial ++ b).isPrefixOf line with
  | false => rfl
  | true =>
    have h1 : serial ++ a <+: line := List.isPrefixOf_iff_prefix.mp h
    have h2 : serial ++ b <+: line := List.isPrefixOf_iff_prefix.mp hb
    have hl : (serial ++ a).length = (serial ++ b).length := by simp [hlen]
    have h12 : serial ++ a <+: serial ++ b := List.prefix_of_prefix_length_le h1 h2 (le_of_eq hl)
    have heq := List.IsPrefix.eq_of_length h12 hl
    exact absurd (List.append_cancel_left heq) hne

theorem ehr_loop_chr (keyH keyR tokH tokR : SStr)
    (hokH : ∀ line, keyH.isPrefixOf line = true → 2 ≤ (pySplit tokH line).length)
    (hokR : ∀ line, keyR.isPrefixOf line = true → 2 ≤ (pySplit tokR line).length) :
    ∀ (lines : List SStr) (h0 r0 : Option SStr),
      ehr_loop keyH keyR tokH tokR lines h0 r0 =
        .ok
          (((lines.filter (fun l => keyH.isPrefixOf l)).getLast?).elim h0
             (fun l => some (pyStrip ((pySplit tokH l).getD 1 []))),
           ((lines.filter (fun l => !(keyH.isPrefixOf l) && keyR.isPrefixOf l)).getLast?).elim r0
             (fun l => some (pyStrip ((pySplit tokR l).getD 1 [])))) := by
  intro lines
  induction lines with
  | nil => intro h0 r0; rfl
  | cons l rest ih =>
    intro h0 r0
    by_cases hH : keyH.isPrefixOf l = true
    · have hget : (pySplit tokH l).get? 1 = some ((pySplit tokH l).getD 1 []) :=
        list_get?_lt _ 1 [] (by have := hokH l hH; omega)
      simp only [ehr_loop, hH, if_true, hget]
      rw [ih]
      have hfH : (l :: rest).filter (fun x => keyH.isPrefixOf x)
          = l :: rest.filter (fun x => keyH.isPrefixOf x) := by
        simp [List.filter_cons, hH]
      have hfR : (l :: rest).filter (fun x => !(keyH.isPrefixOf x) && keyR.isPrefixOf x)
          = rest.filter (fun x => !(keyH.isPrefixOf x) && keyR.isPrefixOf x) := by
        simp [List.filter_cons, hH]
      rw [hfH, hfR, getLast?_cons_eq]
      cases hlast : (rest.filter (fun x => keyH.isPrefixOf x)).getLast? <;> simp [hlast]
    · have hH' : keyH.isPrefixOf l = false := by
        cases hb : keyH.isPrefixOf l
        · rfl
        · exact absurd hb hH
      have hfH : (l :: rest).filter (fun x => keyH.isPrefixOf x)
          = rest.filter (fun x => keyH.isPrefixOf x) := by
        simp [List.filter_cons, hH']
      by_cases hR : keyR.isPrefixOf l = true
      · have hget : (pySplit tokR l).get? 1 = some ((pySplit tokR l).getD 1 []) :=
          list_get?_lt _ 1 [] (by have := hokR l hR; omega)
        simp only [ehr_loop, hH', Bool.false_eq_true, if_false, hR, if_true, hget]
        rw [ih]
        have hfR : (l :: rest).filter (fun x => !(keyH.isPrefixOf x) && keyR.isPrefixOf x)
            = l :: rest.filter (fun x => !(keyH.isPrefixOf x) && keyR.isPrefixOf x) := by
          simp [List.filter_cons, hH', hR]
        rw [hfH, hfR, getLast?_cons_eq]
        cases hlast : (rest.filter (fun x => !(keyH.isPrefixOf x) && keyR.isPrefixOf x)).getLast?
          <;> simp [hlast]
      · have hR' : keyR.isPrefixOf l = false := by
          cases hb : keyR.isPrefixOf l
          · rfl
          · exact absurd hb hR
        simp only [ehr_loop, hH', hR', Bool.false_eq_true, if_false]
        rw [ih]
        have hfR : (l :: rest).filter (fun x => !(keyH.isPrefixOf x) && keyR.isPrefixOf x)
            = rest.filter (fun x => !(keyH.isPrefixOf x) && keyR.isPrefixOf x) := by
          simp [List.filter_cons, hR']
        rw [hfH, hfR]

theorem ehr_filter_plain (keyH keyR : SStr)
    (hdisj : ∀ line, keyR.isPrefixOf line = true → keyH.isPrefixOf line = false)
    (lines : List SStr) :
    lines.filter (fun l => !(keyH.isPrefixOf l) && keyR.isPrefixOf l)
      = lines.filter (fun l => keyR.isPrefixOf l) := by
  apply List.filter_congr
  intro l _
  cases hR : keyR.isPrefixOf l with
  | false => simp [hR]
  | true => simp [hR, hdisj l hR]

/-- C3 (amended): for every line-set and serial, `extract_header_and_record`
takes the LAST line starting with `{serial}D=` and returns as header the
segment of that line strictly between the first occurrence of the token `D=`
and the next occurrence of `D=` (element 1 of splitting the whole line on
`D=`), trimmed — not everything after the first occurrence; symmetrically the
record comes from the last `{serial}E=` line via the token `E=`.  If either
is absent or empty after the scan, the call fails as a unit with `None` and no
partial result.  The same holds for `extract_header_and_record_c4` with `J=`
and `K=`. -/
theorem claim_c3_extract_header_and_record (lblLines : List SStr) (serial : SStr) :
    (extract_header_and_record lblLines serial =
      (let hOpt := ((lblLines.filter (fun l => (serial ++ dTok).isPrefixOf l)).getLast?).elim
         (none : Option SStr) (fun l => some (pyStrip ((pySplit dTok l).getD 1 [])))
       let rOpt := ((lblLines.filter (fun l => (serial ++ eTok).isPrefixOf l)).getLast?).elim
         (none : Option SStr) (fun l => some (pyStrip ((pySplit eTok l).getD 1 [])))
       if pyTruthyStr hOpt && pyTruthyStr rOpt then .ok (some (hOpt.getD [], rOpt.getD []))
       else .ok none))
    ∧ (extract_header_and_record_c4 lblLines serial =
      (let hOpt := ((lblLines.filter (fun l => (serial ++ jTok).isPrefixOf l)).getLast?).elim
         (none : Option SStr) (fun l => some (pyStrip ((pySplit jTok l).getD 1 [])))
       let rOpt := ((lblLines.filter (fun l => (serial ++ kTok).isPrefixOf l)).getLast?).elim
         (none : Option SStr) (fun l => some (pyStrip ((pySplit kTok l).getD 1 [])))
       if pyTruthyStr hOpt && pyTruthyStr rOpt then .ok (some (hOpt.getD [], rOpt.getD []))
       else .ok none)) := by
  constructor
  · unfold extract_header_and_record
    rw [ehr_loop_chr (serial ++ dTok) (serial ++ eTok) dTok eTok
        (fun line h => key_line_split_two serial dTok line (by decide) h)
        (fun line h => key_line_split_two serial eTok line (by decide) h),
      ehr_filter_plain (serial ++ dTok) (serial ++ eTok)
        (fun line h => keys_disjoint serial eTok dTok (by decide) (by decide) line h)]
  · unfold extract_header_and_record_c4
    rw [ehr_loop_chr (serial ++ jTok) (serial ++ kTok) jTok kTok
        (fun line h => key_line_split_two serial jTok line (by decide) h)
        (fun line h => key_line_split_two serial kTok line (by decide) h),
      ehr_filter_plain (serial ++ jTok) (serial ++ kTok)
        (fun line h => keys_disjoint serial kTok jTok (by decide) (by decide) line h)]

/-- C3 counterexample: on the line-set `["sD=aD=b", "sE=r"]` with serial `s`,
the extracted header is `"a"` (the segment between the first and second
occurrence of the token `D=`), while the claim's "everything after the first
occurrence of the prefix token" would be `"aD=b"`. -/
theorem claim_c3_counterexample :
    extract_header_and_record [ exC3LineD, exC3LineE ] exSerialS
      = .ok (some ("a".toList, "r".toList))
    ∧ ("a".toList : SStr) ≠ "aD=b".toList :=
  ⟨by decide, by decide⟩

theorem reverse_find?_eq_filter_getLast? {α : Type} (p : α → Bool) (xs : List α) :
    xs.reverse.find? p = (xs.filter p).getLast? := by
  induction xs with
  | nil => rfl
  | cons a t ih =>
    rw [List.reverse_cons, List.find?_append, ih, List.filter_cons]
    cases hp : p a with
    | false => simp [List.find?, hp]
    | true =>
      rw [if_pos rfl, getLast?_cons_eq]
      cases hl : (t.filter p).getLast? <;> simp [List.find?, hp, hl]

/-- C7: when the report file's lines contain at least one case-insensitive
occurrence of `"my2n token:"`, `extract_my2n_token` takes the LAST such line
of the file; the needle is located case-insensitively (first occurrence in
the lowered line) but the value keeps the original case of everything after
it, trimmed; the result is `EmptyValue` when that trimmed remainder is empty
and the value itself otherwise.  With no matching line the call fails with
`Missing`. -/
theorem claim_c7_extract_my2n_token (serialNumber : SStr) (lines : List SStr)
    (lastLine : SStr) (idx : Nat)
    (hser : (pySplit ['-'] serialNumber).length = 3) :
    ((lines.filter (fun l => occursIn my2nTok (pyLower l))) = [] →
       extract_my2n_token serialNumber (some lines) = .ok .missing)
    ∧ ((lines.filter (fun l => occursIn my2nTok (pyLower l))).getLast? = some lastLine →
       pyFind my2nTok (pyLower lastLine) = some idx →
       extract_my2n_token serialNumber (some lines) =
         .ok (if (pyStrip (lastLine.drop (idx + my2nTok.length))).isEmpty then .emptyValue
              else .found (pyStrip (lastLine.drop (idx + my2nTok.length))))) := by
  have hif : ¬((pySplit ['-'] serialNumber).length ≠ 3) := by omega
  constructor
  · intro hnil
    simp only [extract_my2n_token, if_neg hif, extract_my2n_core,
      reverse_find?_eq_filter_getLast?, hnil, List.getLast?_nil]
  · intro hlast hfind
    simp only [extract_my2n_token, if_neg hif, extract_my2n_core,
      reverse_find?_eq_filter_getLast?, hlast, hfind]

/-- Witness for C7: a report with `My2N Token: ABC` then `My2N Token: XYZ`
yields `XYZ` — the last matching line, located case-insensitively. -/
theorem claim_c7_witness :
    extract_my2n_token exMy2nSerial (some [ exMy2nLine1, exMy2nLine2 ])
      = .ok (.found ("XYZ".toList)) := by
  have h := (claim_c7_extract_my2n_token exMy2nSerial [ exMy2nLine1, exMy2nLine2 ]
      exMy2nLine2 0 (by decide)).2 (by decide) (by decide)
  rw [h]
  decide

theorem isOkE_ite {α : Type} (c : Prop) [Decidable c] (a b : Except PyExc α)
    (ha : isOkE a = true) (hb : isOkE b = true) : isOkE (if c then a else b) = true := by
  split
  · exact ha
  · exact hb

theorem isOkE_handled {α β : Type} (e : Except PyExc α) (g : α → Except PyExc β)
    (d : Except PyExc β) (hg : ∀ r, isOkE (g r) = true) (hd : isOkE d = true) :
    isOkE (match e with | .ok r => g r | .error _ => d) = true := by
  cases e with
  | ok r => exact hg r
  | error _ => exact hd

theorem isOkE_opt {α β : Type} (o : Option α) (g : α → Except PyExc β)
    (d : Except PyExc β) (hg : ∀ x, isOkE (g x) = true) (hd : isOkE d = true) :
    isOkE (match o with | none => d | some x => g x) = true := by
  cases o with
  | none => exact hd
  | some x => exact hg x

theorem check_login_isOk (fileLines : List (List Nat)) (sha : SStr → SStr) (password : SStr) :
    isOkE (check_login fileLines sha password) = true := by
  unfold check_login
  cases decoding_file fileLines sha with
  | none => rfl
  | some d =>
    show isOkE (pyCatchAll (check_login_loop (sha password) d) (false, none)) = true
    cases check_login_loop (sha password) d <;> rfl

theorem validate_product_isOk (L : List SStr) (S : SStr) :
    isOkE (validate_input_exists_for_product L S) = true := by
  unfold validate_input_exists_for_product
  exact isOkE_ite _ _ _ rfl rfl

theorem validate_control4_isOk (L : List SStr) (S : SStr) :
    isOkE (validate_input_exists_for_control4 L S) = true := by
  unfold validate_input_exists_for_control4
  exact isOkE_ite _ _ _ rfl rfl

theorem extract_header_and_record_isOk (L : List SStr) (S : SStr) :
    isOkE (extract_header_and_record L S) = true := by
  unfold extract_header_and_record
  rw [ehr_loop_chr (S ++ dTok) (S ++ eTok) dTok eTok
      (fun line h => key_line_split_two S dTok line (by decide) h)
      (fun line h => key_line_split_two S eTok line (by decide) h)]
  exact isOkE_ite _ _ _ rfl rfl

theorem extract_header_and_record_c4_isOk (L : List SStr) (S : SStr) :
    isOkE (extract_header_and_record_c4 L S) = true := by
  unfold extract_header_and_record_c4
  rw [ehr_loop_chr (S ++ jTok) (S ++ kTok) jTok kTok
      (fun line h => key_line_split_two S jTok line (by decide) h)
      (fun line h => key_line_split_two S kTok line (by decide) h)]
  exact isOkE_ite _ _ _ rfl rfl

theorem extract_trigger_values_isOk (L : List SStr) (S : SStr) :
    isOkE (extract_trigger_values L S) = true := by
  unfold extract_trigger_values
  rw [etv_loop_find (S ++ bTok) bTok
      (fun line h => key_line_split_two S bTok line (by decide) h) L]
  cases L.find? (fun line => (S ++ bTok).isPrefixOf line) <;> rfl

theorem extract_trigger_values_c4_isOk (L : List SStr) (S : SStr) :
    isOkE (extract_trigger_values_c4 L S) = true := by
  unfold extract_trigger_values_c4
  rw [etv_loop_find (S ++ iTok) iTok
      (fun line h => key_line_split_two S iTok line (by decide) h) L]
  cases L.find? (fun line => (S ++ iTok).isPrefixOf line) <;> rfl

theorem seqOpts_all_some {α : Type} :
    ∀ (xs : List (Option α)), (∀ x ∈ xs, x ≠ none) → ∃ vs, seqOpts xs = some vs := by
  intro xs
  induction xs with
  | nil => exact fun _ => ⟨[], rfl⟩
  | cons x rest ih =>
    intro h
    cases x with
    | none => exact absurd rfl (h none (by simp))
    | some a =>
      obtain ⟨vs, hvs⟩ := ih (fun y hy => h y (by simp [hy]))
      exact ⟨a :: vs, by simp [seqOpts, hvs]⟩

theorem validate_and_inject_isOk (header record p : SStr) :
    isOkE (validate_and_inject_balice header record (some p)) = true := by
  unfold validate_and_inject_balice
  dsimp only
  split
  · rfl
  · rename_i index _
    split
    · rfl
    · have hall : ∀ x ∈ ((pySplit qcqTok record).map some).set index (some p), x ≠ none := by
        intro x hx
        rcases List.mem_or_eq_of_mem_set hx with hmem | heq
        · obtain ⟨y, _, hy⟩ := List.mem_map.mp hmem
          rw [← hy]
          simp
        · rw [heq]
          simp
      obtain ⟨vs, hvs⟩ := seqOpts_all_some _ hall
      have hjoin : pyJoinStrict qcqTok (((pySplit qcqTok record).map some).set index (some p))
          = .ok (joinSep qcqTok vs) := by
        simp [pyJoinStrict, hvs]
      rw [hjoin]
      rfl

theorem extract_my2n_token_isOk (serialNumber : SStr) (reportFile : Option (List SStr)) :
    isOkE (extract_my2n_token serialNumber reportFile) = true := by
  unfold extract_my2n_token
  split
  · rfl
  · cases reportFile <;> rfl

/-- C6 (amended): every extraction/verification operation handles failures at
the point of detection and hands the caller a typed missing/invalid result or
a boolean — no exception escapes — for all inputs, PROVIDED the published
prefix is a string when `validate_and_inject_balice` re-joins the record.
(With the prefix global still `None`, the re-join raises an uncaught
`TypeError`; see the counterexample.) -/
theorem claim_c6_no_uncaught_exception :
    (∀ (fileLines : List (List Nat)) (sha : SStr → SStr) (password : SStr),
       isOkE (check_login fileLines sha password) = true)
    ∧ (∀ (L : List SStr) (S : SStr), isOkE (validate_input_exists_for_product L S) = true)
    ∧ (∀ (L : List SStr) (S : SStr), isOkE (validate_input_exists_for_control4 L S) = true)
    ∧ (∀ (L : List SStr) (S : SStr), isOkE (extract_header_and_record L S) = true)
    ∧ (∀ (L : List SStr) (S : SStr), isOkE (extract_header_and_record_c4 L S) = true)
    ∧ (∀ (L : List SStr) (S : SStr), isOkE (extract_trigger_values L S) = true)
    ∧ (∀ (L : List SStr) (S : SStr), isOkE (extract_trigger_values_c4 L S) = true)
    ∧ (∀ (header record p : SStr), isOkE (validate_and_inject_balice header record (some p)) = true)
    ∧ (∀ (serialNumber : SStr) (reportFile : Option (List SStr)),
       isOkE (extract_my2n_token serialNumber reportFile) = true) :=
  ⟨check_login_isOk, validate_product_isOk, validate_control4_isOk,
   extract_header_and_record_isOk, extract_header_and_record_c4_isOk,
   extract_trigger_values_isOk, extract_trigger_values_c4_isOk,
   validate_and_inject_isOk, extract_my2n_token_isOk⟩

/-- C6 counterexample: with the published prefix still unset (`None`, its
module-initial value), `validate_and_inject_balice` on a header that contains
the target field raises a `TypeError` from `'","'.join(...)` that the
`except ValueError` clause does not catch: an exception crosses the
extraction/verification boundary. -/
theorem claim_c6_counterexample :
    validate_and_inject_balice exC5Header exC5Clean none = .error .typeError := by
  decide

theorem occursIn_cons_eq {α : Type} [DecidableEq α] (sep : List α) (c : α) (w : List α) :
    occursIn sep (c :: w) = (sep.isPrefixOf (c :: w) || occursIn sep w) := rfl

theorem pySplit_cut {α : Type} [DecidableEq α] {sep : List α} (hs : sep ≠ []) :
    ∀ (p t : List α), noCross sep p →
      pySplit sep (p ++ (sep ++ t)) = p :: pySplit sep t := by
  intro p
  induction p with
  | nil =>
    intro t _
    rw [List.nil_append]
    cases hsep : sep with
    | nil => exact absurd hsep hs
    | cons c0 sep' =>
      show pySplit (c0 :: sep') (c0 :: (sep' ++ t)) = [] :: pySplit (c0 :: sep') t
      rw [pySplit_cons]
      have hcut : (c0 :: sep' : List α) ≠ [] ∧ (c0 :: sep').isPrefixOf (c0 :: (sep' ++ t)) = true := by
        refine ⟨by simp, ?_⟩
        exact isPrefixOf_append_self (c0 :: sep') t
      rw [if_pos hcut]
      have hdrop : List.drop ((c0 :: sep').length - 1) (sep' ++ t) = t := by
        have : (c0 :: sep').length - 1 = sep'.length := by simp
        rw [this, List.drop_left]
      rw [hdrop]
  | cons c p' ih =>
    intro t hnc
    have hu : p' ++ sep ≠ [] := by
      cases sep with
      | nil => exact absurd rfl hs
      | cons a q => simp
    have hdl : ((c :: p') ++ sep).dropLast = c :: (p' ++ sep).dropLast := by
      show (c :: (p' ++ sep)).dropLast = c :: (p' ++ sep).dropLast
      exact List.dropLast_cons_of_ne_nil hu
    have hnc' := hnc
    unfold noCross at hnc'
    rw [hdl, occursIn_cons_eq] at hnc'
    have hpre1 : sep.isPrefixOf (c :: (p' ++ sep).dropLast) = false := by
      cases hb : sep.isPrefixOf (c :: (p' ++ sep).dropLast)
      · rfl
      · rw [hb] at hnc'
        simp at hnc'
    have htail : occursIn sep ((p' ++ sep).dropLast) = false := by
      cases hb : occursIn sep ((p' ++ sep).dropLast)
      · rfl
      · rw [hb] at hnc'
        simp at hnc'
    show pySplit sep (c :: (p' ++ (sep ++ t))) = (c :: p') :: pySplit sep t
    rw [pySplit_cons]
    have hpre : sep.isPrefixOf (c :: (p' ++ (sep ++ t))) = false := by
      cases hb : sep.isPrefixOf (c :: (p' ++ (sep ++ t)))
      · rfl
      · exfalso
        have hP : sep <+: c :: (p' ++ (sep ++ t)) := List.isPrefixOf_iff_prefix.mp hb
        have h1 : (c :: (p' ++ sep)).dropLast <+: c :: (p' ++ sep) :=
          List.dropLast_prefix (c :: (p' ++ sep))
        have h2 : c :: (p' ++ sep) <+: c :: (p' ++ (sep ++ t)) := by
          have : c :: (p' ++ (sep ++ t)) = (c :: (p' ++ sep)) ++ t := by
            simp [List.append_assoc]
          rw [this]
          exact List.prefix_append (c :: (p' ++ sep)) t
        have hchain : (c :: (p' ++ sep)).dropLast <+: c :: (p' ++ (sep ++ t)) := h1.trans h2
        have hlen : sep.length ≤ ((c :: (p' ++ sep)).dropLast).length := by
          rw [List.length_dropLast]
          simp
        have hsp : sep <+: (c :: (p' ++ sep)).dropLast :=
          List.prefix_of_prefix_length_le hP hchain hlen
        have : sep.isPrefixOf ((c :: (p' ++ sep)).dropLast) = true :=
          List.isPrefixOf_iff_prefix.mpr hsp
        rw [show (c :: (p' ++ sep)).dropLast = c :: (p' ++ sep).dropLast from
          List.dropLast_cons_of_ne_nil hu] at this
        rw [this] at hpre1
        simp at hpre1
    have hcut : ¬((sep : List α) ≠ [] ∧ sep.isPrefixOf (c :: (p' ++ (sep ++ t))) = true) := by
      intro ⟨_, hb⟩
      rw [hpre] at hb
      exact Bool.false_ne_true hb
    rw [if_neg hcut, ih t htail]

theorem pySplit_eq_single {α : Type} [DecidableEq α] (sep : List α) :
    ∀ n (s p : List α), s.length ≤ n → pySplit sep s = [p] → p = s := by
  intro n
  induction n with
  | zero =>
    intro s p hlen hsp
    have hnil : s = [] := List.length_eq_zero.mp (by omega)
    subst hnil
    rw [pySplit_nil] at hsp
    simp only [List.cons.injEq] at hsp
    exact hsp.1.symm
  | succ m ih =>
    intro s p hlen hsp
    cases s with
    | nil =>
      rw [pySplit_nil] at hsp
      simp only [List.cons.injEq] at hsp
      exact hsp.1.symm
    | cons c rest =>
      rw [pySplit_cons] at hsp
      by_cases hcut : (sep ≠ [] ∧ sep.isPrefixOf (c :: rest) = true)
      · rw [if_pos hcut] at hsp
        simp only [List.cons.injEq] at hsp
        exact absurd hsp.2 (pySplit_ne_nil sep _)
      · rw [if_neg hcut] at hsp
        cases hps : pySplit sep rest with
        | nil => exact absurd hps (pySplit_ne_nil sep rest)
        | cons p0 ps0 =>
          rw [hps] at hsp
          simp only [List.cons.injEq] at hsp
          obtain ⟨h1, h2⟩ := hsp
          have hp0 : p0 = rest := by
            refine ih rest p0 ?_ ?_
            · simp only [List.length_cons] at hlen
              omega
            · rw [hps, h2]
          rw [← h1, hp0]

theorem pySplit_cons_structure {α : Type} [DecidableEq α] (sep : List α) (hs : sep ≠ []) :
    ∀ n (s p q : List α) (ps : List (List α)), s.length ≤ n →
      pySplit sep s = p :: q :: ps →
      ∃ t, s = p ++ (sep ++ t) ∧ pySplit sep t = q :: ps := by
  intro n
  induction n with
  | zero =>
    intro s p q ps hlen hsp
    have hnil : s = [] := List.length_eq_zero.mp (by omega)
    subst hnil
    rw [pySplit_nil] at hsp
    simp at hsp
  | succ m ih =>
    intro s p q ps hlen hsp
    cases s with
    | nil =>
      rw [pySplit_nil] at hsp
      simp at hsp
    | cons c rest =>
      rw [pySplit_cons] at hsp
      by_cases hcut : (sep ≠ [] ∧ sep.isPrefixOf (c :: rest) = true)
      · rw [if_pos hcut] at hsp
        simp only [List.cons.injEq] at hsp
        obtain ⟨hp, hrest⟩ := hsp
        obtain ⟨u, hu⟩ := List.isPrefixOf_iff_prefix.mp hcut.2
        have hdrop : List.drop (sep.length - 1) rest = u := by
          cases hsep : sep with
          | nil => exact absurd hsep hs
          | cons s0 sep' =>
            rw [hsep] at hu
            have h2 : rest = sep' ++ u := by
              have h3 := hu
              simp only [List.cons_append, List.cons.injEq] at h3
              exact h3.2.symm
            rw [h2]
            have hl : (s0 :: sep').length - 1 = sep'.length := by simp
            rw [hl, List.drop_left]
        refine ⟨u, ?_, ?_⟩
        · rw [← hp, List.nil_append, ← hu]
        · rw [← hrest, hdrop]
      · rw [if_neg hcut] at hsp
        cases hps : pySplit sep rest with
        | nil => exact absurd hps (pySplit_ne_nil sep rest)
        | cons p0 ps0 =>
          rw [hps] at hsp
          simp only [List.cons.injEq] at hsp
          obtain ⟨hp, hps0⟩ := hsp
          obtain ⟨t, hrest, hsplit⟩ := ih rest p0 q ps
            (by simp only [List.length_cons] at hlen; omega) (by rw [hps, hps0])
          refine ⟨t, ?_, hsplit⟩
          rw [← hp]
          show c :: rest = (c :: p0) ++ (sep ++ t)
          rw [hrest]
          rfl

theorem pySplit_goodPieces {α : Type} [DecidableEq α] {sep : List α} (hs : sep ≠ []) :
    ∀ n (s : List α), s.length ≤ n → GoodPieces sep (pySplit sep s) := by
  have hnil_occ : occursIn sep ([] : List α) = false :=
    occursIn_short (by simpa using List.length_pos.mpr hs)
  have hnc_nil : noCross sep ([] : List α) := by
    unfold noCross
    rw [List.nil_append]
    exact occursIn_short (by rw [List.length_dropLast]; have := List.length_pos.mpr hs; omega)
  intro n
  induction n with
  | zero =>
    intro s hlen
    have hnil : s = [] := List.length_eq_zero.mp (by omega)
    subst hnil
    rw [pySplit_nil]
    exact hnil_occ
  | succ m ih =>
    intro s hlen
    cases s with
    | nil =>
      rw [pySplit_nil]
      exact hnil_occ
    | cons c rest =>
      rw [pySplit_cons]
      by_cases hcut : (sep ≠ [] ∧ sep.isPrefixOf (c :: rest) = true)
      · rw [if_pos hcut]
        have hrem : GoodPieces sep (pySplit sep (List.drop (sep.length - 1) rest)) := by
          refine ih _ ?_
          have := List.length_drop (sep.length - 1) rest
          simp only [List.length_cons] at hlen
          omega
        cases hps : pySplit sep (List.drop (sep.length - 1) rest) with
        | nil => exact absurd hps (pySplit_ne_nil sep _)
        | cons q ps =>
          rw [hps] at hrem
          exact ⟨hnc_nil, hrem⟩
      · rw [if_neg hcut]
        have hpre : sep.isPrefixOf (c :: rest) = false := by
          cases hb : sep.isPrefixOf (c :: rest)
          · rfl
          · exact absurd ⟨hs, hb⟩ hcut
        cases hps : pySplit sep rest with
        | nil => exact absurd hps (pySplit_ne_nil sep rest)
        | cons p0 ps0 =>
          have hg0 : GoodPieces sep (p0 :: ps0) := by
            rw [← hps]
            exact ih rest (by simp only [List.length_cons] at hlen; omega)
          cases ps0 with
          | nil =>
            have hp0 : p0 = rest := pySplit_eq_single sep rest.length rest p0 le_rfl hps
            have hx : occursIn sep p0 = false := hg0
            rw [hp0] at hx
            show occursIn sep (c :: p0) = false
            rw [hp0, occursIn_cons_eq, hpre, hx]
            rfl
          | cons q ps' =>
            have hAnd : noCross sep p0 ∧ GoodPieces sep (q :: ps') := hg0
            obtain ⟨t, hrest, _⟩ :=
              pySplit_cons_structure sep hs rest.length rest p0 q ps' le_rfl hps
            refine ⟨?_, hAnd.2⟩
            have hu : p0 ++ sep ≠ [] := by
              cases sep with
              | nil => exact absurd rfl hs
              | cons a w => simp
            unfold noCross
            rw [show ((c :: p0) ++ sep).dropLast = c :: (p0 ++ sep).dropLast by
              show (c :: (p0 ++ sep)).dropLast = c :: (p0 ++ sep).dropLast
              exact List.dropLast_cons_of_ne_nil hu]
            rw [occursIn_cons_eq]
            have h2 : occursIn sep ((p0 ++ sep).dropLast) = false := hAnd.1
            have h1 : sep.isPrefixOf (c :: (p0 ++ sep).dropLast) = false := by
              cases hb : sep.isPrefixOf (c :: (p0 ++ sep).dropLast)
              · rfl
              · exfalso
                have hP : sep <+: c :: (p0 ++ sep).dropLast :=
                  List.isPrefixOf_iff_prefix.mp hb
                have hd : c :: (p0 ++ sep).dropLast <+: c :: (p0 ++ sep) := by
                  rw [show c :: (p0 ++ sep).dropLast = (c :: (p0 ++ sep)).dropLast from
                    (List.dropLast_cons_of_ne_nil hu).symm]
                  exact List.dropLast_prefix (c :: (p0 ++ sep))
                have he : c :: (p0 ++ sep) <+: c :: rest := by
                  rw [hrest]
                  refine ⟨t, ?_⟩
                  simp [List.append_assoc]
                have : sep <+: c :: rest := hP.trans (hd.trans he)
                have hbad : sep.isPrefixOf (c :: rest) = true :=
                  List.isPrefixOf_iff_prefix.mpr this
                rw [hbad] at hpre
                simp at hpre
            rw [h1, h2]
            rfl

theorem pySplit_joinSep {α : Type} [DecidableEq α] {sep : List α} (hs : sep ≠ []) :
    ∀ (parts : List (List α)), parts ≠ [] → GoodPieces sep parts →
      pySplit sep (joinSep sep parts) = parts := by
  intro parts
  induction parts with
  | nil => intro h _; exact absurd rfl h
  | cons p ps ih =>
    intro _ hgp
    cases ps with
    | nil =>
      have hocc : occursIn sep p = false := hgp
      show pySplit sep p = [p]
      exact pySplit_no_occurrence p.length p le_rfl hocc
    | cons q ps' =>
      have hAnd : noCross sep p ∧ GoodPieces sep (q :: ps') := hgp
      have hflat : joinSep sep (p :: q :: ps') = p ++ (sep ++ joinSep sep (q :: ps')) := by
        show p ++ sep ++ joinSep sep (q :: ps') = p ++ (sep ++ joinSep sep (q :: ps'))
        simp [List.append_assoc]
      rw [hflat, pySplit_cut hs p _ hAnd.1, ih (by simp) hAnd.2]

theorem goodPieces_set {α : Type} [DecidableEq α] {sep : List α} (v : List α)
    (hv1 : noCross sep v) (hv2 : occursIn sep v = false) :
    ∀ (l : List (List α)) (i : Nat), GoodPieces sep l → GoodPieces sep (l.set i v) := by
  intro l
  induction l with
  | nil => intro i _; exact trivial
  | cons p ps ih =>
    intro i hgp
    cases i with
    | zero =>
      show GoodPieces sep (v :: ps)
      cases ps with
      | nil => exact hv2
      | cons q ps' =>
        have hAnd : noCross sep p ∧ GoodPieces sep (q :: ps') := hgp
        exact ⟨hv1, hAnd.2⟩
    | succ j =>
      show GoodPieces sep (p :: ps.set j v)
      cases ps with
      | nil => exact hgp
      | cons q ps' =>
        have hAnd : noCross sep p ∧ GoodPieces sep (q :: ps') := hgp
        have hrec : GoodPieces sep ((q :: ps').set j v) := ih j hAnd.2
        cases j with
        | zero => exact ⟨hAnd.1, hrec⟩
        | succ j' => exact ⟨hAnd.1, hrec⟩

theorem occursIn_append_head_notin {α : Type} [DecidableEq α] (h0 : α) (sep' : List α) :
    ∀ (x y : List α), (∀ c ∈ x, c ≠ h0) →
      occursIn (h0 :: sep') (x ++ y) = occursIn (h0 :: sep') y := by
  intro x
  induction x with
  | nil => intro y _; rw [List.nil_append]
  | cons c x' ih =>
    intro y hx
    have hc : c ≠ h0 := hx c (by simp)
    have hpre : (h0 :: sep').isPrefixOf (c :: (x' ++ y)) = false := by
      show (h0 == c && sep'.isPrefixOf (x' ++ y)) = false
      have hbe : (h0 == c) = false := beq_eq_false_iff_ne.mpr (Ne.symm hc)
      rw [hbe, Bool.false_and]
    show occursIn (h0 :: sep') (c :: (x' ++ y)) = occursIn (h0 :: sep') y
    rw [occursIn_cons_eq, hpre, ih y (fun d hd => hx d (by simp [hd])), Bool.false_or]

theorem qcq_eq : qcqTok = '"' :: [',', '"'] := by decide

theorem noCross_qcq (v : SStr) (hq : ∀ c ∈ v, c ≠ '"') : noCross qcqTok v := by
  unfold noCross
  have h1 : (v ++ qcqTok).dropLast = v ++ qcqTok.dropLast :=
    List.dropLast_append_of_ne_nil v (by decide)
  have h2 : qcqTok.dropLast = ['"', ','] := by decide
  rw [h1, h2, qcq_eq, occursIn_append_head_notin '"' [',', '"'] v ['"', ','] hq]
  decide

theorem sepFree_qcq (v : SStr) (hq : ∀ c ∈ v, c ≠ '"') : occursIn qcqTok v = false := by
  have h := occursIn_append_head_notin '"' [',', '"'] v [] hq
  rw [List.append_nil] at h
  rw [qcq_eq, h]
  decide

theorem seqOpts_map_some {α : Type} : ∀ (l : List α), seqOpts (l.map some) = some l := by
  intro l
  induction l with
  | nil => rfl
  | cons a t ih => simp [seqOpts, ih]

/-- C5 (amended): whenever `validate_and_inject_balice` succeeds and the
injected prefix value contains no double-quote character, the returned
record's field count under splitting on the three-character delimiter `","`
equals the input record's field count.  (A prefix containing `"` can make the
delimiter re-appear across field boundaries and change the count; see the
counterexample.) -/
theorem claim_c5_inject_preserves_field_count (header record pfxv out : SStr)
    (hq : ('"' : Char) ∉ pfxv)
    (hsucc : validate_and_inject_balice header record (some pfxv) = .ok (some out)) :
    (pySplit qcqTok out).length = (pySplit qcqTok record).length := by
  have hq' : ∀ c ∈ pfxv, c ≠ '"' := fun c hc hce => hq (hce ▸ hc)
  unfold validate_and_inject_balice at hsucc
  dsimp only at hsucc
  split at hsucc
  · exact absurd hsucc (by simp)
  · rename_i index heq
    split at hsucc
    · exact absurd hsucc (by simp)
    · have hmp : ((pySplit qcqTok record).map some).set index (some pfxv)
          = ((pySplit qcqTok record).set index pfxv).map some := List.map_set.symm
      rw [hmp] at hsucc
      have hjoin : pyJoinStrict qcqTok (((pySplit qcqTok record).set index pfxv).map some)
          = .ok (joinSep qcqTok ((pySplit qcqTok record).set index pfxv)) := by
        unfold pyJoinStrict
        rw [seqOpts_map_some]
      rw [hjoin] at hsucc
      have hout : out = joinSep qcqTok ((pySplit qcqTok record).set index pfxv) := by
        simp only [Except.ok.injEq, Option.some.injEq] at hsucc
        exact hsucc.symm
      have hgp : GoodPieces qcqTok ((pySplit qcqTok record).set index pfxv) :=
        goodPieces_set pfxv (noCross_qcq pfxv hq') (sepFree_qcq pfxv hq') _ index
          (pySplit_goodPieces (by decide) record.length record le_rfl)
      have hwne : (pySplit qcqTok record).set index pfxv ≠ [] := by
        intro hcon
        have hlen0 : ((pySplit qcqTok record).set index pfxv).length = 0 := by
          rw [hcon]
          rfl
        rw [List.length_set] at hlen0
        have := pySplit_ne_nil qcqTok record
        cases hsp : pySplit qcqTok record with
        | nil => exact this hsp
        | cons a t => rw [hsp] at hlen0; simp at hlen0
      rw [hout, pySplit_joinSep (by decide) _ hwne hgp, List.length_set]

/-- Witness for C5 (amended): injecting the quote-free prefix `OK7` into the
two-field record `a","b` yields `OK7","b`, still two fields. -/
theorem claim_c5_witness :
    validate_and_inject_balice exC5Header exC5Record (some exC5Clean) = .ok (some exC5CleanOut)
    ∧ (pySplit qcqTok exC5CleanOut).length = (pySplit qcqTok exC5Record).length := by
  refine ⟨by decide, ?_⟩
  exact claim_c5_inject_preserves_field_count exC5Header exC5Record exC5Clean exC5CleanOut
    (by decide) (by decide)

/-- C5 counterexample: injecting the prefix `x","y` (which contains the
delimiter) into the two-field record `a","b` succeeds and returns
`x","y","b`, whose `","`-split field count is 3, not 2 — the claim's
unconditional invariant fails. -/
theorem claim_c5_counterexample :
    validate_and_inject_balice exC5Header exC5Record (some exC5BadValue) = .ok (some exC5BadOut)
    ∧ (pySplit qcqTok exC5BadOut).length ≠ (pySplit qcqTok exC5Record).length :=
  ⟨by decide, by decide⟩
